import Mathlib

/-!
Verification of the data-pool component of libmaxminddb (src/src/data-pool.c,
src/src/data-pool.h) against its natural-language specification.

Shallow embedding conventions:
* `size_t` values are `Nat`; the modelled build has 64-bit `size_t`, so
  `SIZE_MAX = 2^64 - 1`.  All size arithmetic the code performs is guarded by
  `can_multiply`, so no computed value ever exceeds `SIZE_MAX` and plain `Nat`
  arithmetic agrees with the machine arithmetic on every reachable path.
* `sizeof(MMDB_entry_data_list_s)` is a platform constant not fixed by the
  sources; it is passed around explicitly as a `nodeSize : Nat` parameter.
  `sizeof(MMDB_entry_data_list_s *)` is 8 on the modelled build.
* A node pointer is a pair `(blockIndex, offset)` into the pool's blocks;
  the C `NULL` pointer is `none`.
* `calloc` of a block is modelled as producing a list of zero-initialised
  nodes; whether a `calloc` call succeeds is an explicit `Bool` parameter
  where a claim depends on acquisition failure.
* The C functions mutate the pool in place; the embedding passes the pool
  state explicitly: `data_pool_alloc` returns the result value together with
  the post-state.  Every `return NULL` path of the C function performs no
  observable mutation before returning, and correspondingly returns the
  input pool unchanged here.
-/

/-- One `MMDB_entry_data_list_s` node as the data-pool code sees it.  The
struct itself is declared in `maxminddb.h` (not part of the pool sources);
its fields are modelled from the spec's Node description and from the uses
in `data-pool.c`: a `head` flag (true iff first node of its block), a `next`
pointer, and an opaque payload owned by the decoder.  `calloc` produces
`⟨false, none, 0⟩` nodes. -/
structure MMDB_entry_data_list_s where
  head : Bool
  next : Option (Nat × Nat)
  payload : Nat
deriving DecidableEq

/-- A zero-initialised node, as produced by `calloc`. -/
def callocNode : MMDB_entry_data_list_s := ⟨false, none, 0⟩

/-- The pool bookkeeping struct `MMDB_data_pool_s` (src/src/data-pool.h).
`blocks` holds the allocated blocks `0..index`; the remaining slots of the
fixed 32-pointer directory are `NULL` in C and are not represented.  `count`,
`index`, `size` and `used` are the struct's `size_t` fields. -/
structure MMDB_data_pool_s where
  blocks : List (List MMDB_entry_data_list_s)
  count : Nat
  index : Nat
  size : Nat
  used : Nat
deriving DecidableEq

/-- Replace the element at position `j` by `f` applied to it; out-of-range
positions leave the list unchanged (used to model an in-place store through
a pointer into a block). -/
def listModify {α : Type} (f : α → α) : Nat → List α → List α
  | _, [] => []
  | 0, x :: xs => f x :: xs
  | j + 1, x :: xs => x :: listModify f j xs

/-- Apply `f` to the node at `(bi, off)` of a block list. -/
def blocksModify (bl : List (List MMDB_entry_data_list_s)) (bi off : Nat)
    (f : MMDB_entry_data_list_s → MMDB_entry_data_list_s) :
    List (List MMDB_entry_data_list_s) :=
  listModify (listModify f off) bi bl

/-- The store `node->next = tgt` for the node at `(bi, off)`. -/
def setNext (bl : List (List MMDB_entry_data_list_s)) (bi off : Nat)
    (tgt : Nat × Nat) : List (List MMDB_entry_data_list_s) :=
  blocksModify bl bi off fun nd => { nd with next := some tgt }

/-- `SIZE_MAX` of the modelled 64-bit build. -/
def SIZE_MAX : Nat := 2 ^ 64 - 1

/-- `can_multiply` (src/src/data-pool.c lines 65-72): report whether `m * n`
stays at or below `max`, without performing the multiplication.  `m = 0` is
reported as "cannot multiply". -/
def can_multiply (max m n : Nat) : Bool :=
  if m = 0 then false
  else decide (n ≤ max / m)

/-- `data_pool_new` (src/src/data-pool.c lines 16-59).  The `calloc`s of the
pool struct and of the 32-slot block directory are modelled as succeeding
(their failure only yields `NULL` with no other effect, indistinguishable
here from the other failure returns).  Returns `none` exactly on the failure
paths that `return NULL`. -/
def data_pool_new (nodeSize : Nat) (size : Nat) : Option MMDB_data_pool_s :=
  let pool : MMDB_data_pool_s :=
    { blocks := [], count := 32, index := 0, size := 0, used := 0 }
  if !can_multiply SIZE_MAX pool.count 8 then none
  else if size = 0 then none
  else if !can_multiply SIZE_MAX size nodeSize then none
  else
    let block0 := listModify (fun nd => { nd with head := true }) 0
      (List.replicate size callocNode)
    some { pool with size := size, blocks := [block0] }

/-- `data_pool_alloc` (src/src/data-pool.c lines 101-152).  `callocOk` models
whether the `calloc` of the new block succeeds.  Returns the allocated node
reference (or `none` on the C function's `return NULL` paths, none of which
mutates the pool first) together with the post-state of the pool.  Writing
the new block into directory slot `index + 1` is modelled as appending to
`blocks`, which holds the allocated slots `0..index`. -/
def data_pool_alloc (nodeSize : Nat) (callocOk : Bool)
    (pool : MMDB_data_pool_s) : Option (Nat × Nat) × MMDB_data_pool_s :=
  if pool.used < pool.size then
    let element := (pool.index, pool.used)
    let blocks' :=
      if 0 < pool.used then
        setNext pool.blocks pool.index (pool.used - 1) element
      else pool.blocks
    (some element, { pool with blocks := blocks', used := pool.used + 1 })
  else
    let new_index := pool.index + 1
    if new_index = pool.count then (none, pool)
    else if !can_multiply SIZE_MAX pool.size 2 then (none, pool)
    else
      let new_size := pool.size * 2
      if !can_multiply SIZE_MAX new_size nodeSize then (none, pool)
      else if !callocOk then (none, pool)
      else
        let newBlock := listModify (fun nd => { nd with head := true }) 0
          (List.replicate new_size callocNode)
        let blocks1 := pool.blocks ++ [newBlock]
        let element := (new_index, 0)
        let blocks2 := setNext blocks1 pool.index (pool.size - 1) element
        (some element,
          { blocks := blocks2, count := pool.count, index := new_index,
            size := new_size, used := 1 })

/-- What a call to `data_pool_destroy` releases and what it leaves allocated,
restricted to the node blocks (the directory and the pool struct themselves
are always freed on a non-null pool and carry no node state). -/
structure DestroyEffect where
  freed : List (List MMDB_entry_data_list_s)
  kept : List (List MMDB_entry_data_list_s)
deriving DecidableEq

/-- `data_pool_destroy` (src/src/data-pool.c lines 80-97).  A null pool is a
no-op.  With `keep_list = false` the loop frees blocks `0..index`; with
`keep_list = true` no block is freed and no node is written. -/
def data_pool_destroy (pool : Option MMDB_data_pool_s) (keep_list : Bool) :
    DestroyEffect :=
  match pool with
  | none => { freed := [], kept := [] }
  | some p =>
    if keep_list then { freed := [], kept := p.blocks }
    else { freed := p.blocks.take (p.index + 1), kept := p.blocks.drop (p.index + 1) }

/-- Iterate `data_pool_alloc` (with succeeding `calloc`s) `n` times,
propagating the pool state; `none` if any call fails. -/
def allocN (nodeSize : Nat) : Nat → MMDB_data_pool_s → Option MMDB_data_pool_s
  | 0, pool => some pool
  | n + 1, pool =>
    match data_pool_alloc nodeSize true pool with
    | (some _, pool') => allocN nodeSize n pool'
    | (none, _) => none

/-- A node of a detached list as the disposer sees it: the `head` flag and
the opaque payload.  A chain is modelled as the Lean list of its nodes in
`next` order (chains produced by the pool are finite and `NULL`-terminated),
so the `next` pointer of the last listed node is `NULL` and every other
node's `next` is the following list element. -/
structure ChainNode where
  head : Bool
  payload : Nat
deriving DecidableEq

/-- `data_pool_get_list_head` (src/src/data-pool.c lines 179-192): scan
forward along `next` and return the first node flagged `head`, or `NULL`
(here `[]`) at the end of the chain.  The returned pointer is modelled as
the suffix of the chain starting at that node. -/
def data_pool_get_list_head : List ChainNode → List ChainNode
  | [] => []
  | x :: xs => if x.head then x :: xs else data_pool_get_list_head xs

theorem data_pool_get_list_head_length_le (l : List ChainNode) :
    (data_pool_get_list_head l).length ≤ l.length := by
  induction l with
  | nil => exact Nat.le_refl _
  | cons x xs ih =>
    by_cases hx : x.head
    · simp [data_pool_get_list_head, hx]
    · simp only [data_pool_get_list_head, hx, if_neg]
      exact Nat.le_succ_of_le ih

/-- `data_pool_list_destroy` (src/src/data-pool.c lines 158-177).  Returns
the C function's `bool` result together with a log of the disposer's
`free(element)` calls: one entry per call, recording the scan region —
`element` itself followed by the nodes the head scan passes over (via
`next`, up to the next `head`-flagged node or the chain's end) before the
next call.  Only the entry's first node is the argument of the `free` call;
what allocation that call releases is a property of the heap (the block
`element` starts), not of the chain.  On a well-formed chain each scan
region is exactly the block `element` heads — one contiguous allocation —
so there the log lists exactly the freed blocks.  On a chain with a
block-boundary node whose `head` flag is missing, the scan region is NOT
what `free` releases: `free(element)` releases only `element`'s own block,
and the unflagged block is passed over without ever being handed to `free`,
so it leaks. -/
def data_pool_list_destroy : List ChainNode → Bool × List (List ChainNode)
  | [] => (true, [])
  | x :: xs =>
    if x.head = false then (false, [])
    else
      let r := data_pool_list_destroy (data_pool_get_list_head xs)
      (r.1, (x :: xs.takeWhile fun nd => !nd.head) :: r.2)
termination_by l => l.length
decreasing_by
  simp only [List.length_cons]
  exact Nat.lt_succ_of_le (data_pool_get_list_head_length_le xs)

/-- A well-formed block as an extent of the chain: nonempty, its first node
flagged `head`, all its other nodes unflagged. -/
def isBlockB : List ChainNode → Bool
  | [] => false
  | x :: xs => x.head && xs.all fun nd => !nd.head

/-- The size/shape invariant of a pool created with initial size `s`: the
active-block size is `s·2^index`, the directory holds exactly blocks
`0..index`, and block `k` has capacity `s·2^k`. -/
def poolInv (s : Nat) (p : MMDB_data_pool_s) : Prop :=
  p.size = s * 2 ^ p.index ∧
  p.blocks.length = p.index + 1 ∧
  ∀ k, k ≤ p.index → (p.blocks.getD k []).length = s * 2 ^ k

/-! ## Basic lemmas about the helpers -/

theorem listModify_length {α : Type} (f : α → α) (j : Nat) (l : List α) :
    (listModify f j l).length = l.length := by
  induction l generalizing j with
  | nil => simp [listModify]
  | cons x xs ih =>
    cases j with
    | zero => simp [listModify]
    | succ j => simp [listModify, ih]

theorem listModify_getD {α : Type} (f : α → α) (j k : Nat) (l : List α)
    (d : α) :
    (listModify f j l).getD k d =
      if j = k ∧ j < l.length then f (l.getD j d) else l.getD k d := by
  induction l generalizing j k with
  | nil => simp [listModify]
  | cons x xs ih =>
    cases j with
    | zero =>
      cases k with
      | zero => simp [listModify]
      | succ k => simp [listModify]
    | succ j =>
      cases k with
      | zero => simp [listModify]
      | succ k =>
        simp only [listModify, List.getD_cons_succ, ih, List.length_cons]
        by_cases h : j = k ∧ j < xs.length
        · rw [if_pos h, if_pos ⟨by omega, by omega⟩]
        · rw [if_neg h, if_neg (by omega)]

theorem can_multiply_eq_true {max m n : Nat} (hm : 0 < m)
    (h : n * m ≤ max) : can_multiply max m n = true := by
  have : n ≤ max / m := (Nat.le_div_iff_mul_le hm).mpr h
  simp [can_multiply, Nat.pos_iff_ne_zero.mp hm, this]

theorem can_multiply_eq_false {max m n : Nat} (hm : 0 < m)
    (h : max < n * m) : can_multiply max m n = false := by
  have : ¬ n ≤ max / m := by
    intro hle
    exact absurd ((Nat.le_div_iff_mul_le hm).mp hle) (Nat.not_le_of_lt h)
  simp [can_multiply, Nat.pos_iff_ne_zero.mp hm, this]

/-! ## C3: the overflow guard -/

/-- C3: `can_multiply max 0 n` is `false` for every `max` and `n`, and for
`m > 0` it is `true` exactly when `n ≤ max / m` under integer division (the
definition only divides; it never forms the product `m * n`). -/
theorem can_multiply_spec :
    (∀ max n, can_multiply max 0 n = false) ∧
    (∀ max m n, 0 < m → (can_multiply max m n = true ↔ n ≤ max / m)) := by
  constructor
  · intro max n
    simp [can_multiply]
  · intro max m n hm
    simp [can_multiply, Nat.pos_iff_ne_zero.mp hm]

/-- Closed instance of `can_multiply_spec`. -/
theorem can_multiply_spec_inst :
    can_multiply 100 0 7 = false ∧
    (can_multiply 100 3 33 = true ↔ 33 ≤ 100 / 3) :=
  ⟨can_multiply_spec.1 100 7, can_multiply_spec.2 100 3 33 (by decide)⟩

/-! ## C6: failure cases of `data_pool_new` -/

/-- C6: `data_pool_new` fails on initial size `0`, and fails whenever the
sizing multiplication `s * nodeSize` would exceed `SIZE_MAX`.  Failure is a
plain `none`: the embedding of every failure path returns before any state
is produced, matching the C paths that release what they allocated and
return `NULL`. -/
theorem data_pool_new_failure (nodeSize : Nat) :
    data_pool_new nodeSize 0 = none ∧
    ∀ s, SIZE_MAX < s * nodeSize → data_pool_new nodeSize s = none := by
  have h32 : can_multiply SIZE_MAX 32 8 = true := by decide
  constructor
  · simp [data_pool_new, h32]
  · intro s hs
    have hspos : 0 < s := by
      rcases Nat.eq_zero_or_pos s with h | h
      · subst h; simp [SIZE_MAX] at hs
      · exact h
    have hcm : can_multiply SIZE_MAX s nodeSize = false :=
      can_multiply_eq_false hspos (by
        calc SIZE_MAX < s * nodeSize := hs
          _ = nodeSize * s := Nat.mul_comm s nodeSize)
    simp [data_pool_new, h32, hcm, Nat.pos_iff_ne_zero.mp hspos]

/-- Closed instance of `data_pool_new_failure` at `nodeSize = 48`,
`s = SIZE_MAX`. -/
theorem data_pool_new_failure_inst :
    data_pool_new 48 0 = none ∧ data_pool_new 48 SIZE_MAX = none :=
  ⟨(data_pool_new_failure 48).1,
   (data_pool_new_failure 48).2 SIZE_MAX (by norm_num [SIZE_MAX])⟩

/-! ## C9: `data_pool_destroy` with `keep_list = true` -/

/-- C9: a null pool is a no-op (nothing freed, nothing touched), and
destroying a pool with `keep_list = true` frees no node block and returns
every block exactly as it was — every node's `head` flag, `next` link and
payload are untouched, so the chain built out of the blocks stays
traversable.  Only the block directory and the pool struct are released,
and they carry no node state. -/
theorem data_pool_destroy_keep_list :
    (∀ b, data_pool_destroy none b = { freed := [], kept := [] }) ∧
    (∀ p, data_pool_destroy (some p) true = { freed := [], kept := p.blocks }) := by
  constructor
  · intro b; rfl
  · intro p; rfl

/-! ## C10: disposing the empty chain -/

/-- C10: `data_pool_list_destroy` on a `NULL` list head frees nothing and
returns `true`: the empty chain counts as fully consumed. -/
theorem data_pool_list_destroy_nil :
    data_pool_list_destroy [] = (true, []) := by
  simp [data_pool_list_destroy]

/-! ## C2: failure behaviour of `data_pool_alloc` -/

/-- C2: `data_pool_alloc` returns the failure signal exactly when the active
block is exhausted and either the directory's next slot would be slot
`count` (32 for created pools) — in which case the failure is unconditional
— or one of the two overflow-guard checks refuses the size computation, or
the block `calloc` fails; and on every failure the pool state is returned
exactly as it was (no field and no node of any allocated block changes). -/
theorem data_pool_alloc_failure (nodeSize : Nat) (ok : Bool)
    (pool : MMDB_data_pool_s) :
    ((data_pool_alloc nodeSize ok pool).1 = none ↔
      pool.size ≤ pool.used ∧
        (pool.index + 1 = pool.count ∨
         can_multiply SIZE_MAX pool.size 2 = false ∨
         can_multiply SIZE_MAX (pool.size * 2) nodeSize = false ∨
         ok = false)) ∧
    ((data_pool_alloc nodeSize ok pool).1 = none →
      (data_pool_alloc nodeSize ok pool).2 = pool) := by
  unfold data_pool_alloc
  by_cases h1 : pool.used < pool.size
  · rw [if_pos h1]
    constructor
    · simp only [reduceCtorEq, false_iff, not_and]
      intro hc
      omega
    · intro hc
      exact absurd hc (by simp)
  · rw [if_neg h1]
    have h1' : pool.size ≤ pool.used := Nat.le_of_not_lt h1
    by_cases h2 : pool.index + 1 = pool.count
    · rw [if_pos h2]
      exact ⟨by simp [h1', h2], fun _ => rfl⟩
    · rw [if_neg h2]
      by_cases h3 : can_multiply SIZE_MAX pool.size 2 = false
      · rw [if_pos (by simp [h3])]
        exact ⟨by simp [h1', h3], fun _ => rfl⟩
      · rw [if_neg (by simpa using h3)]
        by_cases h4 : can_multiply SIZE_MAX (pool.size * 2) nodeSize = false
        · rw [if_pos (by simp [h4])]
          exact ⟨by simp [h1', h4], fun _ => rfl⟩
        · rw [if_neg (by simpa using h4)]
          cases ok with
          | false => exact ⟨by simp [h1'], fun _ => rfl⟩
          | true =>
            rw [if_neg (by simp)]
            constructor
            · simp only [reduceCtorEq, false_iff, not_and]
              intro _
              simp only [Bool.not_eq_false] at h3 h4
              simp [h2, h3, h4]
            · intro hc
              exact absurd hc (by simp)

/-- Closed instance of `data_pool_alloc_failure`: a pool whose active block
(31, the 32nd) is exhausted fails and is returned unchanged. -/
theorem data_pool_alloc_failure_inst :
    (data_pool_alloc 48 true ⟨[[callocNode]], 32, 31, 1, 1⟩).1 = none ∧
    (data_pool_alloc 48 true ⟨[[callocNode]], 32, 31, 1, 1⟩).2 =
      ⟨[[callocNode]], 32, 31, 1, 1⟩ := by
  have h := data_pool_alloc_failure 48 true ⟨[[callocNode]], 32, 31, 1, 1⟩
  have h1 : (data_pool_alloc 48 true ⟨[[callocNode]], 32, 31, 1, 1⟩).1 = none :=
    h.1.mpr ⟨by decide, Or.inl rfl⟩
  exact ⟨h1, h.2 h1⟩

/-! ## Successful creation -/

/-- The freshly `calloc`ed block with its first node's `head` flag set. -/
theorem markHead_length (n : Nat) :
    (listModify (fun nd => { nd with head := true }) 0
      (List.replicate n callocNode)).length = n := by
  rw [listModify_length, List.length_replicate]

theorem markHead_getD_zero (n : Nat) (hn : 0 < n) :
    ((listModify (fun nd => { nd with head := true }) 0
      (List.replicate n callocNode)).getD 0 callocNode).head = true := by
  cases n with
  | zero => omega
  | succ k => rfl

theorem data_pool_new_pos (nodeSize s : Nat) (hs : 0 < s)
    (hsz : s * nodeSize ≤ SIZE_MAX) :
    data_pool_new nodeSize s =
      some ⟨[listModify (fun nd => { nd with head := true }) 0
        (List.replicate s callocNode)], 32, 0, s, 0⟩ := by
  have h32 : can_multiply SIZE_MAX 32 8 = true := by decide
  have hcm : can_multiply SIZE_MAX s nodeSize = true :=
    can_multiply_eq_true hs (by rw [Nat.mul_comm]; exact hsz)
  simp [data_pool_new, h32, hcm, Nat.pos_iff_ne_zero.mp hs]

/-! ## C5 (corrected): creation and the first alloc -/

/-- Counterexample to C5 as stated: `2^63` is a positive initial size, yet
`data_pool_new` fails on it (with node size 48, the sizing multiplication
`2^63 * 48` exceeds `SIZE_MAX`, and the guard refuses it), so `create(s)`
does not succeed for every positive `s`. -/
theorem data_pool_new_pos_size_cex :
    0 < 2 ^ 63 ∧ data_pool_new 48 (2 ^ 63) = none := by
  constructor
  · decide
  · decide

/-- C5 (amended): for every positive `s` whose sizing multiplication does not
overflow (`s * nodeSize ≤ SIZE_MAX`), `data_pool_new` succeeds, block `0`
has capacity `s` with its first node flagged `head`, and the first alloc on
the created pool succeeds without growth regardless of whether a further
block `calloc` could succeed: it returns node `(0, 0)` of block `0` and the
only field that changes is `used`, so `index` and `size` are untouched. -/
theorem data_pool_new_first_alloc (nodeSize s : Nat) (hs : 0 < s)
    (hsz : s * nodeSize ≤ SIZE_MAX) :
    ∃ b, data_pool_new nodeSize s = some ⟨[b], 32, 0, s, 0⟩ ∧
      b.length = s ∧ (b.getD 0 callocNode).head = true ∧
      ∀ ok, data_pool_alloc nodeSize ok ⟨[b], 32, 0, s, 0⟩ =
        (some (0, 0), ⟨[b], 32, 0, s, 1⟩) := by
  refine ⟨_, data_pool_new_pos nodeSize s hs hsz, markHead_length s,
    markHead_getD_zero s hs, ?_⟩
  intro ok
  simp [data_pool_alloc, hs]

/-- Closed instance of `data_pool_new_first_alloc` at `nodeSize = 48`,
`s = 4`. -/
theorem data_pool_new_first_alloc_inst :
    ∃ b, data_pool_new 48 4 = some ⟨[b], 32, 0, 4, 0⟩ ∧
      b.length = 4 ∧ (b.getD 0 callocNode).head = true ∧
      ∀ ok, data_pool_alloc 48 ok ⟨[b], 32, 0, 4, 0⟩ =
        (some (0, 0), ⟨[b], 32, 0, 4, 1⟩) :=
  data_pool_new_first_alloc 48 4 (by decide) (by decide)

/-! ## C1: growth on the `s+1`-th alloc -/

/-- Allocating `j` more nodes out of a pool whose single block `0` (of
capacity `s`) still has room for them stays inside block `0`: only `used`
and the `next` links inside the block change. -/
theorem allocN_fill (nodeSize s : Nat) :
    ∀ (j u : Nat) (b : List MMDB_entry_data_list_s), b.length = s →
      u + j ≤ s →
      ∃ b', allocN nodeSize j ⟨[b], 32, 0, s, u⟩ =
          some ⟨[b'], 32, 0, s, u + j⟩ ∧ b'.length = s := by
  intro j
  induction j with
  | zero =>
    intro u b hb _
    exact ⟨b, by simp [allocN], hb⟩
  | succ j ih =>
    intro u b hb hle
    have hu : u < s := by omega
    have hu' : u < MMDB_data_pool_s.size ⟨[b], 32, 0, s, u⟩ := hu
    have hstep : data_pool_alloc nodeSize true ⟨[b], 32, 0, s, u⟩ =
        (some (0, u),
         ⟨[if 0 < u then
             listModify (fun nd => { nd with next := some (0, u) }) (u - 1) b
           else b], 32, 0, s, u + 1⟩) := by
      by_cases hu0 : 0 < u
      · simp [data_pool_alloc, hu', hu0, setNext, blocksModify, listModify]
      · simp [data_pool_alloc, hu', hu0]
    have hlen : (if 0 < u then
        listModify (fun nd => { nd with next := some (0, u) }) (u - 1) b
      else b).length = s := by
      by_cases hu0 : 0 < u <;> simp [hu0, listModify_length, hb]
    obtain ⟨b', hb', hlen'⟩ := ih (u + 1) _ hlen (by omega)
    refine ⟨b', ?_, hlen'⟩
    rw [show u + (j + 1) = u + 1 + j by omega]
    rw [allocN, hstep]
    exact hb'

/-- C1: starting from a pool created with size `s`, after exactly `s`
successful allocs the active block is exhausted, and the next alloc — with
the sizing checks passing and the `calloc` succeeding — allocates a new
block of capacity `2s` whose first node is flagged `head`, links the last
node of block `0` to that first node, advances `index` to `1`, sets
`size = 2s` and `used = 1`, and returns the new block's first node
`(1, 0)`. -/
theorem alloc_block_growth (nodeSize s : Nat) (hs : 0 < s)
    (h2 : 2 * s ≤ SIZE_MAX) (h3 : nodeSize * (2 * s) ≤ SIZE_MAX) :
    ∃ b b' pool',
      data_pool_new nodeSize s = some ⟨[b], 32, 0, s, 0⟩ ∧
      allocN nodeSize s ⟨[b], 32, 0, s, 0⟩ = some ⟨[b'], 32, 0, s, s⟩ ∧
      data_pool_alloc nodeSize true ⟨[b'], 32, 0, s, s⟩ =
        (some (1, 0), pool') ∧
      pool'.index = 1 ∧ pool'.size = 2 * s ∧ pool'.used = 1 ∧
      pool'.blocks.length = 2 ∧
      (pool'.blocks.getD 1 []).length = 2 * s ∧
      ((pool'.blocks.getD 1 []).getD 0 callocNode).head = true ∧
      ((pool'.blocks.getD 0 []).getD (s - 1) callocNode).next = some (1, 0) := by
  have hsz : s * nodeSize ≤ SIZE_MAX := by
    refine le_trans ?_ h3
    rw [Nat.mul_comm]
    exact Nat.mul_le_mul_left nodeSize (by omega)
  obtain ⟨b', hb', hlen'⟩ :=
    allocN_fill nodeSize s s 0
      (listModify (fun nd => { nd with head := true }) 0
        (List.replicate s callocNode))
      (markHead_length s) (by omega)
  rw [Nat.zero_add] at hb'
  have hcm2 : can_multiply SIZE_MAX s 2 = true := can_multiply_eq_true hs h2
  have hcm3 : can_multiply SIZE_MAX (s * 2) nodeSize = true :=
    can_multiply_eq_true (by omega) (by rw [Nat.mul_comm s 2]; exact h3)
  have hstep : data_pool_alloc nodeSize true ⟨[b'], 32, 0, s, s⟩ =
      (some (1, 0),
       ⟨[listModify (fun nd => { nd with next := some (1, 0) }) (s - 1) b',
         listModify (fun nd => { nd with head := true }) 0
           (List.replicate (s * 2) callocNode)],
        32, 1, s * 2, 1⟩) := by
    simp [data_pool_alloc, hcm2, hcm3, setNext, blocksModify, listModify]
  refine ⟨_, b', _, data_pool_new_pos nodeSize s hs hsz, hb', hstep,
    rfl, by simpa using Nat.mul_comm s 2, rfl, rfl, ?_, ?_, ?_⟩
  · show (listModify (fun nd => { nd with head := true }) 0
      (List.replicate (s * 2) callocNode)).length = 2 * s
    rw [markHead_length, Nat.mul_comm]
  · exact markHead_getD_zero (s * 2) (by omega)
  · show ((listModify (fun nd => { nd with next := some (1, 0) }) (s - 1)
      b').getD (s - 1) callocNode).next = some (1, 0)
    rw [listModify_getD, if_pos ⟨rfl, by omega⟩]

/-- Closed instance of `alloc_block_growth` at `nodeSize = 48`, `s = 2`. -/
theorem alloc_block_growth_inst :
    ∃ b b' pool',
      data_pool_new 48 2 = some ⟨[b], 32, 0, 2, 0⟩ ∧
      allocN 48 2 ⟨[b], 32, 0, 2, 0⟩ = some ⟨[b'], 32, 0, 2, 2⟩ ∧
      data_pool_alloc 48 true ⟨[b'], 32, 0, 2, 2⟩ = (some (1, 0), pool') ∧
      pool'.index = 1 ∧ pool'.size = 2 * 2 ∧ pool'.used = 1 ∧
      pool'.blocks.length = 2 ∧
      (pool'.blocks.getD 1 []).length = 2 * 2 ∧
      ((pool'.blocks.getD 1 []).getD 0 callocNode).head = true ∧
      ((pool'.blocks.getD 0 []).getD (2 - 1) callocNode).next = some (1, 0) :=
  alloc_block_growth 48 2 (by decide) (by decide) (by decide)

/-! ## C4: the doubling invariant -/

theorem setNext_length (bl : List (List MMDB_entry_data_list_s))
    (bi off : Nat) (t : Nat × Nat) : (setNext bl bi off t).length = bl.length := by
  unfold setNext blocksModify
  exact listModify_length _ _ _

theorem setNext_getD_length (bl : List (List MMDB_entry_data_list_s))
    (bi off : Nat) (t : Nat × Nat) (k : Nat) :
    ((setNext bl bi off t).getD k []).length = (bl.getD k []).length := by
  unfold setNext blocksModify
  rw [listModify_getD]
  by_cases h : bi = k ∧ bi < bl.length
  · rcases h with ⟨rfl, hlt⟩
    rw [if_pos ⟨rfl, hlt⟩, listModify_length]
  · rw [if_neg h]

theorem poolInv_new (nodeSize s : Nat) (p : MMDB_data_pool_s)
    (h : data_pool_new nodeSize s = some p) : poolInv s p := by
  have h32 : can_multiply SIZE_MAX 32 8 = true := by decide
  by_cases hs0 : s = 0
  · subst hs0
    simp [data_pool_new, h32] at h
  by_cases hcm : can_multiply SIZE_MAX s nodeSize = true
  · simp only [data_pool_new, h32, hcm, Bool.not_true, Bool.false_eq_true,
      if_false, hs0, if_neg, Option.some.injEq] at h
    subst h
    refine ⟨by simp, rfl, ?_⟩
    intro k hk
    have hk0 : k = 0 := Nat.le_zero.mp hk
    subst hk0
    simpa using markHead_length s
  · simp [data_pool_new, h32, hs0, hcm] at h

theorem poolInv_alloc (nodeSize : Nat) (ok : Bool) (s : Nat)
    (p : MMDB_data_pool_s) (hinv : poolInv s p) :
    poolInv s (data_pool_alloc nodeSize ok p).2 := by
  obtain ⟨hsz, hlen, hblk⟩ := hinv
  simp only [data_pool_alloc]
  by_cases h1 : p.used < p.size
  · rw [if_pos h1]
    refine ⟨hsz, ?_, ?_⟩
    · show (if 0 < p.used then
          setNext p.blocks p.index (p.used - 1) (p.index, p.used)
        else p.blocks).length = p.index + 1
      by_cases h0 : 0 < p.used
      · rw [if_pos h0, setNext_length]; exact hlen
      · rw [if_neg h0]; exact hlen
    · intro k hk
      show ((if 0 < p.used then
          setNext p.blocks p.index (p.used - 1) (p.index, p.used)
        else p.blocks).getD k []).length = s * 2 ^ k
      by_cases h0 : 0 < p.used
      · rw [if_pos h0, setNext_getD_length]; exact hblk k hk
      · rw [if_neg h0]; exact hblk k hk
  · rw [if_neg h1]
    by_cases h2 : p.index + 1 = p.count
    · rw [if_pos h2]; exact ⟨hsz, hlen, hblk⟩
    · rw [if_neg h2]
      by_cases h3 : (!can_multiply SIZE_MAX p.size 2) = true
      · rw [if_pos h3]; exact ⟨hsz, hlen, hblk⟩
      · rw [if_neg h3]
        by_cases h4 : (!can_multiply SIZE_MAX (p.size * 2) nodeSize) = true
        · rw [if_pos h4]; exact ⟨hsz, hlen, hblk⟩
        · rw [if_neg h4]
          by_cases h5 : (!ok) = true
          · rw [if_pos h5]; exact ⟨hsz, hlen, hblk⟩
          · rw [if_neg h5]
            refine ⟨?_, ?_, ?_⟩
            · show p.size * 2 = s * 2 ^ (p.index + 1)
              rw [hsz, Nat.pow_succ, Nat.mul_assoc]
            · show (setNext (p.blocks ++ [_]) p.index (p.size - 1)
                (p.index + 1, 0)).length = p.index + 1 + 1
              rw [setNext_length, List.length_append, hlen]
              rfl
            · intro k hk
              replace hk : k ≤ p.index + 1 := hk
              show ((setNext (p.blocks ++ [_]) p.index (p.size - 1)
                (p.index + 1, 0)).getD k []).length = s * 2 ^ k
              rw [setNext_getD_length]
              by_cases hkle : k ≤ p.index
              · rw [List.getD_append _ _ _ _ (by omega)]
                exact hblk k hkle
              · have hk1 : k = p.index + 1 := by omega
                subst hk1
                rw [List.getD_append_right _ _ _ _ (by omega), hlen,
                  Nat.sub_self]
                show (listModify (fun nd => { nd with head := true }) 0
                  (List.replicate (p.size * 2) callocNode)).length =
                    s * 2 ^ (p.index + 1)
                rw [markHead_length, hsz, Nat.pow_succ, Nat.mul_assoc]

theorem poolInv_allocN (nodeSize s n : Nat) :
    ∀ p p' : MMDB_data_pool_s, poolInv s p →
      allocN nodeSize n p = some p' → poolInv s p' := by
  induction n with
  | zero =>
    intro p p' hinv h
    simp only [allocN, Option.some.injEq] at h
    rwa [← h]
  | succ n ih =>
    intro p p' hinv h
    rw [allocN] at h
    cases hstep : data_pool_alloc nodeSize true p with
    | mk r q =>
      rw [hstep] at h
      have hq : poolInv s q := by
        have hw := poolInv_alloc nodeSize true s p hinv
        rwa [hstep] at hw
      cases r with
      | none => simp at h
      | some v => exact ih q p' hq h

/-- C4: for a pool created with initial size `s`, after any number of
successful allocs the invariant `size = s * 2^index` holds, and every
allocated block `k ≤ index` has capacity `s * 2^k` — block `0` has the
caller-requested capacity `s` and each later block doubles the previous
one. -/
theorem pool_size_doubling (nodeSize s n k : Nat) (p0 p' : MMDB_data_pool_s)
    (h0 : data_pool_new nodeSize s = some p0)
    (h1 : allocN nodeSize n p0 = some p') (hk : k ≤ p'.index) :
    p'.size = s * 2 ^ p'.index ∧ (p'.blocks.getD k []).length = s * 2 ^ k := by
  have hinv := poolInv_allocN nodeSize s n p0 p'
    (poolInv_new nodeSize s p0 h0) h1
  exact ⟨hinv.1, hinv.2.2 k hk⟩

/-- Closed instance of `pool_size_doubling` at `nodeSize = 48`, `s = 1`,
`n = 2` allocs, block `k = 1`. -/
theorem pool_size_doubling_inst :
    (MMDB_data_pool_s.mk
      [[⟨true, some (1, 0), 0⟩], [⟨true, none, 0⟩, ⟨false, none, 0⟩]]
      32 1 2 1).size =
      1 * 2 ^ (MMDB_data_pool_s.mk
        [[⟨true, some (1, 0), 0⟩], [⟨true, none, 0⟩, ⟨false, none, 0⟩]]
        32 1 2 1).index ∧
    ((MMDB_data_pool_s.mk
      [[⟨true, some (1, 0), 0⟩], [⟨true, none, 0⟩, ⟨false, none, 0⟩]]
      32 1 2 1).blocks.getD 1 []).length = 1 * 2 ^ 1 :=
  pool_size_doubling 48 1 2 1 ⟨[[⟨true, none, 0⟩]], 32, 0, 1, 0⟩
    (MMDB_data_pool_s.mk
      [[⟨true, some (1, 0), 0⟩], [⟨true, none, 0⟩, ⟨false, none, 0⟩]]
      32 1 2 1)
    (by decide) (by decide) (by decide)

/-! ## The disposer's head scan -/

theorem gh_cons_true (x : ChainNode) (l : List ChainNode)
    (hx : x.head = true) : data_pool_get_list_head (x :: l) = x :: l := by
  simp [data_pool_get_list_head, hx]

theorem gh_skip (t l : List ChainNode) (ht : ∀ y ∈ t, y.head = false) :
    data_pool_get_list_head (t ++ l) = data_pool_get_list_head l := by
  induction t with
  | nil => simp
  | cons y ys ih =>
    have hy : y.head = false := ht y (List.mem_cons_self _ _)
    simp only [List.cons_append, data_pool_get_list_head, hy,
      Bool.false_eq_true, if_false]
    exact ih fun z hz => ht z (List.mem_cons_of_mem _ hz)

theorem takeWhile_skip (t l : List ChainNode) (ht : ∀ y ∈ t, y.head = false) :
    (t ++ l).takeWhile (fun nd => !nd.head) =
      t ++ l.takeWhile (fun nd => !nd.head) := by
  induction t with
  | nil => simp
  | cons y ys ih =>
    have hy : y.head = false := ht y (List.mem_cons_self _ _)
    simp only [List.cons_append, List.takeWhile_cons, hy, Bool.not_false,
      if_true, List.cons.injEq, true_and]
    exact ih fun z hz => ht z (List.mem_cons_of_mem _ hz)

theorem gh_spec (l : List ChainNode) :
    data_pool_get_list_head l = [] ∨
      ∃ y ys, data_pool_get_list_head l = y :: ys ∧ y.head = true := by
  induction l with
  | nil => exact Or.inl rfl
  | cons x xs ih =>
    by_cases hx : x.head = true
    · exact Or.inr ⟨x, xs, by simp [data_pool_get_list_head, hx], hx⟩
    · have hx' : x.head = false := by simpa using hx
      simpa [data_pool_get_list_head, hx'] using ih

/-! ## C7: disposing a well-formed chain -/

/-- C7: on a chain that is the concatenation of well-formed blocks (each
nonempty, first node flagged `head`, other nodes unflagged), the disposer
walks the chain from its head, frees exactly the blocks, each once and as
one whole unit from its head node to the node before the next head, and
returns success. -/
theorem list_destroy_well_formed (bs : List (List ChainNode))
    (h : ∀ b ∈ bs, isBlockB b = true) :
    data_pool_list_destroy bs.flatten = (true, bs) := by
  induction bs with
  | nil => simp [data_pool_list_destroy]
  | cons b rest ih =>
    have hb : isBlockB b = true := h b (List.mem_cons_self b rest)
    cases b with
    | nil => simp [isBlockB] at hb
    | cons x t =>
      simp only [isBlockB, Bool.and_eq_true, List.all_eq_true] at hb
      obtain ⟨hx, ht⟩ := hb
      have ht' : ∀ y ∈ t, y.head = false := by
        intro y hy
        simpa using ht y hy
      have hrest : ∀ b' ∈ rest, isBlockB b' = true :=
        fun b' hb' => h b' (List.mem_cons_of_mem _ hb')
      rw [List.flatten_cons, List.cons_append]
      rw [data_pool_list_destroy]
      rw [if_neg (by simp [hx])]
      rw [gh_skip t _ ht', takeWhile_skip t _ ht']
      cases rest with
      | nil =>
        simp [data_pool_list_destroy, data_pool_get_list_head]
      | cons b2 rest2 =>
        have hb2 : isBlockB b2 = true := hrest b2 (List.mem_cons_self _ _)
        cases b2 with
        | nil => simp [isBlockB] at hb2
        | cons y t2 =>
          have hy : y.head = true := by
            simp only [isBlockB, Bool.and_eq_true] at hb2
            exact hb2.1
          have hih := ih hrest
          rw [List.flatten_cons, List.cons_append] at hih ⊢
          rw [gh_cons_true _ _ hy, hih]
          simp [List.takeWhile_cons, hy]

/-- Closed instance of `list_destroy_well_formed` on a two-block chain. -/
theorem list_destroy_well_formed_inst :
    data_pool_list_destroy
      (List.flatten [[(⟨true, 7⟩ : ChainNode)], [⟨true, 9⟩, ⟨false, 3⟩]]) =
      (true, [[⟨true, 7⟩], [⟨true, 9⟩, ⟨false, 3⟩]]) :=
  list_destroy_well_formed [[⟨true, 7⟩], [⟨true, 9⟩, ⟨false, 3⟩]] (by decide)

/-! ## C8 (corrected): where the disposer can detect a missing head flag -/

/-- Counterexample to C8 as stated: a two-block chain whose second block's
(first and only) node should be flagged `head` but is not.  The claim says
the disposer reports failure on such a chain; instead the head scan skips
the unflagged node and the disposer returns success, having called `free`
exactly once (at the first block's head) — the unflagged node's block is
never handed to `free`, so it is leaked, not freed, and no failure is
reported. -/
theorem list_destroy_unflagged_cex :
    (data_pool_list_destroy
      (([⟨true, 0⟩] : List ChainNode) ++ [⟨false, 0⟩])).1 = true ∧
    (data_pool_list_destroy
      (([⟨true, 0⟩] : List ChainNode) ++ [⟨false, 0⟩])).2.length = 1 := by
  have h : data_pool_list_destroy
      (([⟨true, 0⟩] : List ChainNode) ++ [⟨false, 0⟩]) =
      (true, [[⟨true, 0⟩, ⟨false, 0⟩]]) := by
    rw [List.cons_append, List.nil_append]
    rw [data_pool_list_destroy]
    simp [data_pool_list_destroy, data_pool_get_list_head,
      List.takeWhile_cons]
  rw [h]
  exact ⟨rfl, rfl⟩

theorem destroy_of_headed :
    ∀ (n : Nat) (l : List ChainNode), l.length ≤ n →
      (l = [] ∨ ∃ y ys, l = y :: ys ∧ y.head = true) →
      (data_pool_list_destroy l).1 = true := by
  intro n
  induction n with
  | zero =>
    intro l hl hd
    have hnil : l = [] := List.eq_nil_of_length_eq_zero (Nat.le_zero.mp hl)
    subst hnil
    simp [data_pool_list_destroy]
  | succ n ih =>
    intro l hl hd
    rcases hd with rfl | ⟨y, ys, rfl, hy⟩
    · simp [data_pool_list_destroy]
    · rw [data_pool_list_destroy]
      rw [if_neg (by simp [hy])]
      exact ih (data_pool_get_list_head ys)
        (le_trans (data_pool_get_list_head_length_le ys) (by simpa using hl))
        (gh_spec ys)

/-- C8 (amended): the disposer's head check can only fail at the very first
node it visits, because the head scan only ever hands it `head`-flagged
nodes (or the chain's end) afterwards.  So: if the chain's first node is
not flagged `head`, dispose reports failure immediately, with no `free`
call made; if the first node is flagged, dispose returns success no matter
which interior nodes are flagged — a boundary node erroneously unflagged
mid-chain is silently skipped by the scan and never passed to `free` (its
block is leaked, not freed), and no failure is reported. -/
theorem list_destroy_head_check (x : ChainNode) (xs : List ChainNode) :
    (x.head = false → data_pool_list_destroy (x :: xs) = (false, [])) ∧
    (x.head = true → (data_pool_list_destroy (x :: xs)).1 = true) := by
  constructor
  · intro hx
    rw [data_pool_list_destroy]
    rw [if_pos hx]
  · intro hx
    rw [data_pool_list_destroy]
    rw [if_neg (by simp [hx])]
    exact destroy_of_headed xs.length (data_pool_get_list_head xs)
      (data_pool_get_list_head_length_le xs) (gh_spec xs)

/-- Closed instance of `list_destroy_head_check`: a chain starting with an
unflagged node fails with nothing freed. -/
theorem list_destroy_head_check_inst :
    data_pool_list_destroy [(⟨false, 0⟩ : ChainNode)] = (false, []) :=
  (list_destroy_head_check ⟨false, 0⟩ []).1 rfl
